import Mathlib

/-!
Shallow embedding of the rumbo-ai driver/route scoring and matching pipeline.

Sources embedded:
* `src/calculate_scores.py` — score normalization (`calculate_driver_scores`,
  `calculate_route_scores`).
* `src/generate_driver_scores_json.py` — the sibling adjusted-score computation
  (`calculate_adjusted_scores`), which guards the zero-standard-deviation case.
* `src/match_drivers_routes.py` — compatibility matrix construction
  (`calculate_compatibility_matrix`) and the assignment solver
  (`solve_matching_problem`).

Numbers are embedded as exact rationals (`ℚ`).  The only float behaviour that
matters to the claims and is not mirrored by `ℚ` is IEEE NaN, which the Python
code produces when it divides by a zero (or undefined) standard deviation;
values that can be NaN are embedded as `Option ℚ`, with `none` for NaN.
The sample standard deviation itself is irrational in general, so functions
that divide by it take it as a parameter `sd`; the intended instantiation is
characterized by `0 ≤ sd ∧ sd ^ 2 = sampleVarKm ds`, and the code paths the
claims exercise depend only on whether `sd = 0` (which happens exactly when
`sampleVarKm ds = 0`, i.e. all driven distances are equal) and on `sd ≠ 0`
otherwise.
-/

namespace RumboAI

/-- np.clip x lo hi = min (max x lo) hi. -/
def clip (x lo hi : ℚ) : ℚ := min (max x lo) hi

/-- Raw driver record as read by `calculate_driver_scores`
(columns safety_score, efficiency_score, compliance_score, driven_km). -/
structure RawDriver where
  safety_score : ℚ
  efficiency_score : ℚ
  compliance_score : ℚ
  driven_km : ℚ
deriving DecidableEq

/-- calculate_scores.py line 27-31:
driver_score_final = 0.4*safety + 0.35*efficiency + 0.25*compliance. -/
def driver_score_final (d : RawDriver) : ℚ :=
  0.4 * d.safety_score + 0.35 * d.efficiency_score + 0.25 * d.compliance_score

/-- calculate_scores.py line 34: mean of the driven_km column. -/
def meanKm (ds : List RawDriver) : ℚ :=
  (ds.map RawDriver.driven_km).sum / ds.length

/-- calculate_scores.py line 35: km_balance = mean_driven_km - driven_km. -/
def km_balance (ds : List RawDriver) (d : RawDriver) : ℚ :=
  meanKm ds - d.driven_km

/-- The sample variance (pandas `.std()` squares to this: ddof = 1) of the
driven_km column.  For fewer than two drivers pandas yields NaN; callers
below branch on `ds.length ≤ 1` before using this value. -/
def sampleVarKm (ds : List RawDriver) : ℚ :=
  (ds.map fun d => (d.driven_km - meanKm ds) ^ 2).sum / ((ds.length : ℚ) - 1)

/-- calculate_scores.py lines 38-39:
`km_balance_scaled = np.clip((km_balance / driven_km.std()) * 5, -10, 10)`.
`sd` is the sample standard deviation of driven_km (see module docstring).
There is no guard on `sd`: when the column has fewer than two entries the
std is NaN, and when all distances are equal the std is 0 and the quotient
is the float 0/0; in both cases the result is NaN (`none`), and `np.clip`
propagates it. -/
def km_balance_scaled (ds : List RawDriver) (sd : ℚ) (d : RawDriver) : Option ℚ :=
  if ds.length ≤ 1 ∨ sd = 0 then none
  else some (clip (km_balance ds d / sd * 5) (-10) 10)

/-- ALPHA = 0.15 (calculate_scores.py line 12). -/
def ALPHA : ℚ := 0.15

/-- calculate_scores.py lines 42-43:
`driver_score_adjusted = np.clip(driver_score_final + ALPHA * km_balance_scaled, 0, 100)`.
NaN in km_balance_scaled propagates through `+` and `np.clip`. -/
def driver_score_adjusted (ds : List RawDriver) (sd : ℚ) (d : RawDriver) : Option ℚ :=
  (km_balance_scaled ds sd d).map fun s => clip (driver_score_final d + ALPHA * s) 0 100

/-- generate_driver_scores_json.py lines 94-99 (`calculate_adjusted_scores`):
the same scaling but guarded by `if std_km > 0`, with the column set to 0
otherwise.  A NaN std (fewer than two drivers) makes the comparison false, so
the guard also sends that case to 0. -/
def km_balance_scaled_json (ds : List RawDriver) (sd : ℚ) (d : RawDriver) : ℚ :=
  if 2 ≤ ds.length ∧ 0 < sd then clip (km_balance ds d / sd * 5) (-10) 10
  else 0

/-- Round an exact rational half-to-even to an integer (the rounding of
numpy/pandas `.round`). -/
def roundHalfEven (x : ℚ) : ℤ :=
  if x - ⌊x⌋ < 1/2 then ⌊x⌋
  else if (1:ℚ)/2 < x - ⌊x⌋ then ⌊x⌋ + 1
  else if ⌊x⌋ % 2 = 0 then ⌊x⌋ else ⌊x⌋ + 1

/-- pandas `.round(2)`: round to two decimal places. -/
def round2 (x : ℚ) : ℚ := (roundHalfEven (x * 100) : ℚ) / 100

/-- One row of the scored drivers table (calculate_scores.py lines 46-50):
the four stored columns, all rounded to two decimals. -/
structure ScoredDriver where
  raw : RawDriver
  final : ℚ
  kmBal : ℚ
  kmBalScaled : Option ℚ
  adjusted : Option ℚ
deriving DecidableEq

/-- calculate_scores.py `calculate_driver_scores` (lines 15-56): computes the
unrounded series and stores each column rounded to two decimals.  `sd` is the
sample standard deviation of the driven_km column (see module docstring). -/
def calculate_driver_scores (ds : List RawDriver) (sd : ℚ) : List ScoredDriver :=
  ds.map fun d =>
    { raw := d
      final := round2 (driver_score_final d)
      kmBal := round2 (km_balance ds d)
      kmBalScaled := (km_balance_scaled ds sd d).map round2
      adjusted := (driver_score_adjusted ds sd d).map round2 }

/-- Raw route record as read by `calculate_route_scores`. -/
structure RawRoute where
  efficiency_score : ℚ
  operational_complexity_score : ℚ
  peligrosity_score : ℚ
deriving DecidableEq

/-- calculate_scores.py lines 72-78:
`route_score_final = np.clip(0.4*efficiency + 0.3*complexity + 0.3*peligrosity, 0, 100)`. -/
def route_score_final (r : RawRoute) : ℚ :=
  clip (0.4 * r.efficiency_score + 0.3 * r.operational_complexity_score
        + 0.3 * r.peligrosity_score) 0 100

/-- The four route difficulty tiers. -/
inductive Tier where
  | easy
  | medium
  | hard
  | expert
deriving DecidableEq

/-- Numeric rank of a tier (Easy < Medium < Hard < Expert). -/
def Tier.rank : Tier → ℕ
  | .easy => 0
  | .medium => 1
  | .hard => 2
  | .expert => 3

/-- Lower endpoint of each tier's score interval (the bins of `pd.cut`). -/
def tierLB : Tier → ℚ
  | .easy => 0
  | .medium => 40
  | .hard => 60
  | .expert => 80

/-- Upper endpoint of each tier's score interval (the bins of `pd.cut`). -/
def tierUB : Tier → ℚ
  | .easy => 40
  | .medium => 60
  | .hard => 80
  | .expert => 100

/-- calculate_scores.py lines 85-89: `pd.cut(route_score_final,
bins=[0,40,60,80,100], labels=[Easy,Medium,Hard,Expert])`.  `pd.cut` uses
right-closed, left-open intervals, so the bins are (0,40], (40,60], (60,80],
(80,100]; a value outside every bin (in particular exactly 0) gets NaN,
embedded as `none`. -/
def difficulty_tier (s : ℚ) : Option Tier :=
  if 0 < s ∧ s ≤ 40 then some .easy
  else if 40 < s ∧ s ≤ 60 then some .medium
  else if 60 < s ∧ s ≤ 80 then some .hard
  else if 80 < s ∧ s ≤ 100 then some .expert
  else none

/-- One row of the scored routes table (calculate_scores.py lines 81-89):
the stored `route_score_final` column is rounded to two decimals, while the
tier is cut from the unrounded series. -/
structure ScoredRoute where
  raw : RawRoute
  finalScore : ℚ
  tier : Option Tier
deriving DecidableEq

/-- calculate_scores.py `calculate_route_scores` (lines 59-95). -/
def calculate_route_scores (rs : List RawRoute) : List ScoredRoute :=
  rs.map fun r =>
    { raw := r
      finalScore := round2 (route_score_final r)
      tier := difficulty_tier (route_score_final r) }

/-- Driver row as read by match_drivers_routes.py from scored_drivers.csv
(the columns it uses). -/
structure MDriver where
  driver_score_adjusted : ℚ
  km_balance : ℚ
  safety_score : ℚ
deriving DecidableEq

/-- Route row as read by match_drivers_routes.py from scored_routes.csv
(the columns it uses). -/
structure MRoute where
  route_score_final : ℚ
  peligrosity_score : ℚ
deriving DecidableEq

/-- match_drivers_routes.py lines 36-55: the per-pair compatibility score. -/
def compat (d : MDriver) (r : MRoute) : ℚ :=
  let score_diff := |d.driver_score_adjusted - r.route_score_final|
  let score_compatibility := 100 - score_diff
  let skill_bonus : ℚ :=
    if d.driver_score_adjusted ≥ r.route_score_final then 10 else -20
  let km_factor := -d.km_balance / 1000
  let safety_bonus : ℚ :=
    if r.peligrosity_score > 70 then d.safety_score * 0.2 else 0
  score_compatibility + skill_bonus + km_factor + safety_bonus

/-- match_drivers_routes.py `calculate_compatibility_matrix` (lines 17-59):
the dense D×R matrix of `compat` values, row i = driver i. -/
def calculate_compatibility_matrix (ds : List MDriver) (rs : List MRoute) :
    List (List ℚ) :=
  ds.map fun d => rs.map fun r => compat d r

/-- The weight formula of the claim (spec §4.2), written from the spec's words:
base + skill_bonus + km_factor + safety_bonus, with no clipping. -/
def specWeight (d : MDriver) (r : MRoute) : ℚ :=
  (100 - |d.driver_score_adjusted - r.route_score_final|)
    + (if d.driver_score_adjusted ≥ r.route_score_final then (10 : ℚ) else -20)
    + (-d.km_balance / 1000)
    + (if r.peligrosity_score > 70 then 0.2 * d.safety_score else 0)

/-- `W[i][j]` on the list-of-rows matrix (0 outside the stored rectangle;
all uses below are in bounds). -/
def matrixGet (W : List (List ℚ)) (i j : ℕ) : ℚ :=
  (W.getD i []).getD j 0

/-- Total selected weight of a list of (driver_index, route_index) pairs. -/
def pairsWeight (W : List (List ℚ)) (ps : List (ℕ × ℕ)) : ℚ :=
  (ps.map fun p => matrixGet W p.1 p.2).sum

/-- Pairs `(a t, k + t)` for the entries of `a`: the pair list described by an
assignment tuple `a` that sends route `k + t` to driver `a t`. -/
def pairsOfAux : ℕ → List ℕ → List (ℕ × ℕ)
  | _, [] => []
  | j, i :: tl => (i, j) :: pairsOfAux (j + 1) tl

/-- The pair list of an assignment tuple `a` (route `j` is served by the `j`-th
entry of `a`). -/
def pairsOf (a : List ℕ) : List (ℕ × ℕ) := pairsOfAux 0 a

/-- Objective value of an assignment tuple. -/
def tupleWeight (W : List (List ℚ)) (a : List ℕ) : ℚ :=
  pairsWeight W (pairsOf a)

/-- All length-`r` tuples over drivers `0..D-1`. -/
def allTuples (D : ℕ) : ℕ → List (List ℕ)
  | 0 => [[]]
  | r + 1 => (List.range D).flatMap fun i => (allTuples D r).map fun tl => i :: tl

/-- Feasible solutions of the binary program built in `solve_matching_problem`
(lines 79-96): `x i j = 1` iff driver `i` serves route `j`, each route served
by exactly one driver and each driver serving at most one route.  Such
solutions are exactly the duplicate-free length-R tuples over `0..D-1`. -/
def candidates (D R : ℕ) : List (List ℕ) :=
  (allTuples D R).filter fun a => a.Nodup

/-- First maximizer of `tupleWeight W` in a candidate list (ties keep the
earlier tuple). -/
def bestTuple (W : List (List ℚ)) : List (List ℕ) → Option (List ℕ)
  | [] => none
  | a :: rest =>
      some (rest.foldl
        (fun best c => if tupleWeight W best < tupleWeight W c then c else best) a)

/-- Models the external CBC call `prob.solve(PULP_CBC_CMD(msg=0))`
(match_drivers_routes.py line 100) on the binary program of lines 77-96:
CBC returns an optimal feasible solution whenever one exists (status
`Optimal`) and a non-`Optimal` status otherwise; which optimum it picks on
ties is its own deterministic but undocumented choice, modeled here as the
first optimum in the enumeration of `candidates`. -/
def solveILP (W : List (List ℚ)) (D R : ℕ) : Option (List ℕ) :=
  bestTuple W (candidates D R)

/-- match_drivers_routes.py lines 111-119: the extraction loop (for i in
range(D), for j in range(R), collect (i, j) when x[i, j] = 1).  In terms of
the tuple `a`, `x i j = 1` iff `a.getD j D = i`. -/
def extractAssignments (D R : ℕ) (a : List ℕ) : List (ℕ × ℕ) :=
  (List.range D).flatMap fun i =>
    (List.range R).filterMap fun j =>
      if a.getD j D = i then some (i, j) else none

/-- match_drivers_routes.py `solve_matching_problem` (lines 62-125): build the
binary program, run CBC, return `None` unless the status is `Optimal` (lines
106-108), otherwise return the extracted (driver_idx, route_idx) pairs. -/
def solve_matching_problem (W : List (List ℚ)) (D R : ℕ) :
    Option (List (ℕ × ℕ)) :=
  (solveILP W D R).map (extractAssignments D R)

/-- The claim's notion of a valid assignment (spec §4.3): every route index
below `R` appears in exactly one chosen pair, no driver index repeats, and
all indices are in range. -/
def IsMatching (D R : ℕ) (ps : List (ℕ × ℕ)) : Prop :=
  (∀ j, j < R → (ps.filter fun p => p.2 == j).length = 1) ∧
  (ps.map Prod.fst).Nodup ∧
  ∀ p ∈ ps, p.1 < D ∧ p.2 < R

/-- A valid assignment of maximal total weight. -/
def IsOptimalMatching (W : List (List ℚ)) (D R : ℕ) (ps : List (ℕ × ℕ)) : Prop :=
  IsMatching D R ps ∧
  ∀ qs, IsMatching D R qs → pairsWeight W qs ≤ pairsWeight W ps

/-- The driver serving route `j` in a pair list (the first component of the
unique pair whose route is `j`). -/
def driverOf (ps : List (ℕ × ℕ)) (j : ℕ) : ℕ :=
  ((ps.filter fun p => p.2 == j).map Prod.fst).headD 0

/-- The assignment tuple of a pair list. -/
def tupleOf (ps : List (ℕ × ℕ)) (R : ℕ) : List ℕ :=
  (List.range R).map (driverOf ps)

/-! ## Helper lemmas about the solver embedding -/

theorem mem_allTuples {D : ℕ} : ∀ {r : ℕ} {a : List ℕ},
    a ∈ allTuples D r ↔ a.length = r ∧ ∀ x ∈ a, x < D := by
  intro r
  induction r with
  | zero =>
    intro a
    constructor
    · intro h
      simp only [allTuples, List.mem_singleton] at h
      subst h
      simp
    · rintro ⟨h, -⟩
      simp [allTuples, List.length_eq_zero.mp h]
  | succ r ih =>
    intro a
    simp only [allTuples, List.mem_flatMap, List.mem_map, List.mem_range]
    constructor
    · rintro ⟨i, hi, tl, htl, rfl⟩
      obtain ⟨hlen, hall⟩ := ih.mp htl
      refine ⟨by simp [hlen], ?_⟩
      intro x hx
      rcases List.mem_cons.mp hx with rfl | hx
      · exact hi
      · exact hall x hx
    · rintro ⟨hlen, hall⟩
      cases a with
      | nil => simp at hlen
      | cons i tl =>
        exact ⟨i, hall i (by simp), tl,
          ih.mpr ⟨by simpa using hlen, fun x hx => hall x (by simp [hx])⟩, rfl⟩

theorem mem_candidates {D R : ℕ} {a : List ℕ} :
    a ∈ candidates D R ↔ a.length = R ∧ (∀ x ∈ a, x < D) ∧ a.Nodup := by
  simp [candidates, List.mem_filter, mem_allTuples, and_assoc]

theorem candidates_ne_nil {D R : ℕ} (h : R ≤ D) : candidates D R ≠ [] := by
  have hmem : List.range R ∈ candidates D R :=
    mem_candidates.mpr ⟨List.length_range R,
      fun x hx => lt_of_lt_of_le (List.mem_range.mp hx) h, List.nodup_range R⟩
  intro hnil
  rw [hnil] at hmem
  exact List.not_mem_nil _ hmem

theorem candidates_eq_nil {D R : ℕ} (h : D < R) : candidates D R = [] := by
  rw [List.eq_nil_iff_forall_not_mem]
  intro a ha
  obtain ⟨hlen, hD, hnd⟩ := mem_candidates.mp ha
  have hsub : a.toFinset ⊆ Finset.range D := by
    intro x hx
    simp only [List.mem_toFinset] at hx
    simpa using hD x hx
  have hcard := Finset.card_le_card hsub
  rw [List.toFinset_card_of_nodup hnd, Finset.card_range] at hcard
  omega

theorem foldl_best {α : Type} (w : α → ℚ) :
    ∀ (l : List α) (a : α),
      (l.foldl (fun best c => if w best < w c then c else best) a) ∈ a :: l ∧
      w a ≤ w (l.foldl (fun best c => if w best < w c then c else best) a) ∧
      ∀ c ∈ l, w c ≤ w (l.foldl (fun best c => if w best < w c then c else best) a) := by
  intro l
  induction l with
  | nil => intro a; simp
  | cons c tl ih =>
    intro a
    simp only [List.foldl_cons]
    obtain ⟨hmem, hle, hall⟩ := ih (if w a < w c then c else a)
    have hstep_a : w a ≤ w (if w a < w c then c else a) := by
      split
      · next hlt => exact le_of_lt hlt
      · exact le_refl _
    have hstep_c : w c ≤ w (if w a < w c then c else a) := by
      split
      · exact le_refl _
      · next hnlt => exact le_of_not_lt hnlt
    refine ⟨?_, le_trans hstep_a hle, ?_⟩
    · rcases List.mem_cons.mp hmem with h | h
      · rw [h]
        split
        · simp
        · simp
      · simp [h]
    · intro x hx
      rcases List.mem_cons.mp hx with rfl | hx
      · exact le_trans hstep_c hle
      · exact hall x hx

theorem bestTuple_spec {W : List (List ℚ)} {l : List (List ℕ)} (h : l ≠ []) :
    ∃ b, bestTuple W l = some b ∧ b ∈ l ∧
      ∀ c ∈ l, tupleWeight W c ≤ tupleWeight W b := by
  cases l with
  | nil => exact absurd rfl h
  | cons a rest =>
    obtain ⟨hmem, hle, hall⟩ := foldl_best (tupleWeight W) rest a
    refine ⟨_, rfl, hmem, ?_⟩
    intro c hc
    rcases List.mem_cons.mp hc with rfl | hc
    · exact hle
    · exact hall c hc

theorem bestTuple_mem {W : List (List ℚ)} {l : List (List ℕ)} {b : List ℕ}
    (h : bestTuple W l = some b) :
    b ∈ l ∧ ∀ c ∈ l, tupleWeight W c ≤ tupleWeight W b := by
  cases l with
  | nil => simp [bestTuple] at h
  | cons a rest =>
    obtain ⟨hmem, hle, hall⟩ := foldl_best (tupleWeight W) rest a
    have hb : rest.foldl
        (fun best c => if tupleWeight W best < tupleWeight W c then c else best) a = b := by
      simpa [bestTuple] using h
    rw [← hb]
    refine ⟨hmem, ?_⟩
    intro c hc
    rcases List.mem_cons.mp hc with rfl | hc
    · exact hle
    · exact hall c hc

theorem pairsOfAux_map_fst : ∀ (k : ℕ) (a : List ℕ),
    (pairsOfAux k a).map Prod.fst = a := by
  intro k a
  induction a generalizing k with
  | nil => simp [pairsOfAux]
  | cons i tl ih => simp [pairsOfAux, ih]

theorem pairsOfAux_map_snd : ∀ (k : ℕ) (a : List ℕ),
    (pairsOfAux k a).map Prod.snd = List.range' k a.length := by
  intro k a
  induction a generalizing k with
  | nil => simp [pairsOfAux]
  | cons i tl ih => simp [pairsOfAux, ih, List.range'_succ]

theorem pairsOf_length (a : List ℕ) : (pairsOf a).length = a.length := by
  have h := pairsOfAux_map_fst 0 a
  calc (pairsOf a).length = ((pairsOf a).map Prod.fst).length := by simp
    _ = a.length := by rw [pairsOf] at *; rw [h]

theorem mem_pairsOfAux {i j : ℕ} : ∀ {a : List ℕ} {k : ℕ},
    (i, j) ∈ pairsOfAux k a ↔ ∃ t, t < a.length ∧ j = k + t ∧ a.getD t 0 = i := by
  intro a
  induction a with
  | nil => intro k; simp [pairsOfAux]
  | cons i0 tl ih =>
    intro k
    simp only [pairsOfAux, List.mem_cons]
    constructor
    · rintro (heq | hmem)
      · obtain ⟨rfl, rfl⟩ : i = i0 ∧ j = k := by simpa [Prod.ext_iff] using heq
        exact ⟨0, by simp, by simp, by simp⟩
      · obtain ⟨t, ht, rfl, hget⟩ := ih.mp hmem
        exact ⟨t + 1, by simpa using ht, by omega, by simpa using hget⟩
    · rintro ⟨t, ht, rfl, hget⟩
      cases t with
      | zero =>
        left
        simp only [List.getD_cons_zero] at hget
        simp [hget]
      | succ t =>
        right
        exact ih.mpr ⟨t, by simpa using ht, by omega, by simpa using hget⟩

theorem mem_pairsOf {a : List ℕ} {i j : ℕ} :
    (i, j) ∈ pairsOf a ↔ j < a.length ∧ a.getD j 0 = i := by
  rw [pairsOf, mem_pairsOfAux]
  constructor
  · rintro ⟨t, ht, rfl, hget⟩
    refine ⟨by omega, ?_⟩
    have hz : (0 : ℕ) + t = t := by omega
    rw [hz]
    exact hget
  · rintro ⟨hj, hget⟩
    exact ⟨j, hj, by omega, hget⟩

theorem pairsOfAux_filter_length : ∀ {a : List ℕ} {k j : ℕ}, k ≤ j → j < k + a.length →
    ((pairsOfAux k a).filter fun p => p.2 == j).length = 1 := by
  intro a
  induction a with
  | nil =>
    intro k j h1 h2
    simp only [List.length_nil] at h2
    omega
  | cons i0 tl ih =>
    intro k j h1 h2
    by_cases hkj : k = j
    · subst hkj
      have hnone : ((pairsOfAux (k + 1) tl).filter fun p => p.2 == k) = [] := by
        rw [List.filter_eq_nil_iff]
        rintro ⟨pi, pj⟩ hp
        obtain ⟨t, -, rfl, -⟩ := mem_pairsOfAux.mp hp
        simp only [beq_iff_eq]
        omega
      simp [pairsOfAux, List.filter_cons, hnone]
    · have hrec : ((pairsOfAux (k + 1) tl).filter fun p => p.2 == j).length = 1 := by
        apply ih
        · omega
        · simp only [List.length_cons] at h2
          omega
      have hhead : (((i0, k) : ℕ × ℕ).2 == j) = false := by
        simp only [beq_eq_false_iff_ne, ne_eq]
        exact hkj
      simp [pairsOfAux, List.filter_cons, hhead, hrec]

theorem pairsOf_filter_length {a : List ℕ} {j : ℕ} (hj : j < a.length) :
    ((pairsOf a).filter fun p => p.2 == j).length = 1 :=
  pairsOfAux_filter_length (Nat.zero_le j) (by omega)

theorem pairsOf_nodup (a : List ℕ) : (pairsOf a).Nodup := by
  have hsnd : ((pairsOf a).map Prod.snd).Nodup := by
    rw [pairsOf, pairsOfAux_map_snd]
    exact List.nodup_range' _ _
  exact List.Nodup.of_map _ hsnd

theorem pairsWeight_perm {W : List (List ℚ)} {ps qs : List (ℕ × ℕ)}
    (h : ps.Perm qs) : pairsWeight W ps = pairsWeight W qs :=
  (h.map _).sum_eq

theorem mem_extract {D R : ℕ} {a : List ℕ} {i j : ℕ} :
    (i, j) ∈ extractAssignments D R a ↔ i < D ∧ j < R ∧ a.getD j D = i := by
  simp only [extractAssignments, List.mem_flatMap, List.mem_filterMap, List.mem_range]
  constructor
  · rintro ⟨i', hi', j', hj', hif⟩
    by_cases hc : a.getD j' D = i'
    · rw [if_pos hc] at hif
      obtain ⟨rfl, rfl⟩ : i' = i ∧ j' = j := by
        simpa [Prod.ext_iff] using hif
      exact ⟨hi', hj', hc⟩
    · rw [if_neg hc] at hif
      exact absurd hif (by simp)
  · rintro ⟨hi, hj, hget⟩
    exact ⟨i, hi, j, hj, by rw [if_pos hget]⟩

theorem extract_nodup (D R : ℕ) (a : List ℕ) :
    (extractAssignments D R a).Nodup := by
  rw [extractAssignments, List.nodup_flatMap]
  constructor
  · intro i _
    apply List.Nodup.filterMap
    · intro j1 j2 p hp1 hp2
      have e1 : p.2 = j1 := by
        by_cases hc : a.getD j1 D = i
        · rw [if_pos hc] at hp1
          simp only [Option.mem_def, Option.some.injEq] at hp1
          rw [← hp1]
        · rw [if_neg hc] at hp1
          simp at hp1
      have e2 : p.2 = j2 := by
        by_cases hc : a.getD j2 D = i
        · rw [if_pos hc] at hp2
          simp only [Option.mem_def, Option.some.injEq] at hp2
          rw [← hp2]
        · rw [if_neg hc] at hp2
          simp at hp2
      omega
    · exact List.nodup_range R
  · apply List.Pairwise.imp ?_ (List.nodup_range D)
    intro i1 i2 hne
    intro p hp1 hp2
    have h1 : p.1 = i1 := by
      rcases List.mem_filterMap.mp hp1 with ⟨j, -, hj⟩
      by_cases hc : a.getD j D = i1
      · rw [if_pos hc] at hj
        injection hj with hj
        rw [← hj]
      · rw [if_neg hc] at hj
        simp at hj
    have h2 : p.1 = i2 := by
      rcases List.mem_filterMap.mp hp2 with ⟨j, -, hj⟩
      by_cases hc : a.getD j D = i2
      · rw [if_pos hc] at hj
        injection hj with hj
        rw [← hj]
      · rw [if_neg hc] at hj
        simp at hj
    exact hne (by omega)

theorem extract_perm {D R : ℕ} {a : List ℕ} (hlen : a.length = R)
    (hD : ∀ x ∈ a, x < D) : (extractAssignments D R a).Perm (pairsOf a) := by
  rw [List.perm_ext_iff_of_nodup (extract_nodup D R a) (pairsOf_nodup a)]
  rintro ⟨i, j⟩
  rw [mem_extract, mem_pairsOf]
  constructor
  · rintro ⟨hi, hj, hget⟩
    have hjlen : j < a.length := by omega
    refine ⟨hjlen, ?_⟩
    rw [List.getD_eq_getElem _ _ hjlen] at hget ⊢
    exact hget
  · rintro ⟨hj, hget⟩
    have hjR : j < R := by omega
    refine ⟨?_, hjR, ?_⟩
    · rw [List.getD_eq_getElem _ _ hj] at hget
      rw [← hget]
      exact hD _ (List.getElem_mem hj)
    · rw [List.getD_eq_getElem _ _ hj] at hget ⊢
      exact hget

theorem pairsOf_map_fst (a : List ℕ) : (pairsOf a).map Prod.fst = a :=
  pairsOfAux_map_fst 0 a

theorem matching_filter_single {D R : ℕ} {ps : List (ℕ × ℕ)} (h : IsMatching D R ps)
    {j : ℕ} (hj : j < R) :
    ∃ q, (ps.filter fun p => p.2 == j) = [q] ∧ q ∈ ps ∧ q.2 = j ∧
      driverOf ps j = q.1 := by
  have hlen := h.1 j hj
  obtain ⟨q, hq⟩ := List.length_eq_one.mp hlen
  have hqmem : q ∈ ps.filter fun p => p.2 == j := by rw [hq]; simp
  refine ⟨q, hq, List.mem_of_mem_filter hqmem, ?_, ?_⟩
  · have := List.of_mem_filter hqmem
    simpa using this
  · rw [driverOf, hq]
    simp

theorem matching_mem_iff {D R : ℕ} {ps : List (ℕ × ℕ)} (h : IsMatching D R ps)
    {i j : ℕ} : (i, j) ∈ ps ↔ j < R ∧ driverOf ps j = i := by
  constructor
  · intro hmem
    have hj : j < R := (h.2.2 _ hmem).2
    obtain ⟨q, hq, -, -, hdrv⟩ := matching_filter_single h hj
    have hin : (i, j) ∈ ps.filter fun p => p.2 == j :=
      List.mem_filter.mpr ⟨hmem, by simp⟩
    rw [hq] at hin
    simp only [List.mem_singleton] at hin
    rw [← hin] at hdrv
    exact ⟨hj, hdrv⟩
  · rintro ⟨hj, hdrv⟩
    obtain ⟨q, -, hqps, hq2, hdrv'⟩ := matching_filter_single h hj
    obtain ⟨qi, qj⟩ := q
    simp only at hq2 hdrv'
    subst hq2
    rw [hdrv'] at hdrv
    subst hdrv
    exact hqps

theorem tupleOf_length (ps : List (ℕ × ℕ)) (R : ℕ) : (tupleOf ps R).length = R := by
  simp [tupleOf]

theorem tupleOf_getD {ps : List (ℕ × ℕ)} {R j : ℕ} (hj : j < R) :
    (tupleOf ps R).getD j 0 = driverOf ps j := by
  rw [tupleOf, List.getD_eq_getElem _ _ (by simpa using hj)]
  simp

theorem tupleOf_mem_candidates {D R : ℕ} {ps : List (ℕ × ℕ)}
    (h : IsMatching D R ps) : tupleOf ps R ∈ candidates D R := by
  refine mem_candidates.mpr ⟨tupleOf_length ps R, ?_, ?_⟩
  · intro x hx
    obtain ⟨j, hj, rfl⟩ : ∃ j, j < R ∧ driverOf ps j = x := by
      simpa [tupleOf, List.mem_map, List.mem_range] using hx
    obtain ⟨q, -, hqps, -, hdrv⟩ := matching_filter_single h hj
    rw [hdrv]
    exact (h.2.2 q hqps).1
  · apply List.Nodup.map_on ?_ (List.nodup_range R)
    intro j1 h1 j2 h2 heq
    rw [List.mem_range] at h1 h2
    obtain ⟨q1, -, hq1ps, hq12, hd1⟩ := matching_filter_single h h1
    obtain ⟨q2, -, hq2ps, hq22, hd2⟩ := matching_filter_single h h2
    have hfst : q1.1 = q2.1 := by rw [← hd1, ← hd2, heq]
    have hq : q1 = q2 := List.inj_on_of_nodup_map h.2.1 hq1ps hq2ps hfst
    rw [← hq12, ← hq22, hq]

theorem matching_perm_pairsOf {D R : ℕ} {ps : List (ℕ × ℕ)}
    (h : IsMatching D R ps) : ps.Perm (pairsOf (tupleOf ps R)) := by
  have hnd : ps.Nodup := List.Nodup.of_map _ h.2.1
  rw [List.perm_ext_iff_of_nodup hnd (pairsOf_nodup _)]
  rintro ⟨i, j⟩
  rw [matching_mem_iff h, mem_pairsOf]
  constructor
  · rintro ⟨hj, hdrv⟩
    refine ⟨by simpa [tupleOf_length] using hj, ?_⟩
    rw [tupleOf_getD hj]
    exact hdrv
  · rintro ⟨hj, hget⟩
    have hjR : j < R := by simpa [tupleOf_length] using hj
    refine ⟨hjR, ?_⟩
    rw [tupleOf_getD hjR] at hget
    exact hget

theorem solve_spec {W : List (List ℚ)} {D R : ℕ} {ps : List (ℕ × ℕ)}
    (h : solve_matching_problem W D R = some ps) :
    ps.length = R ∧ IsMatching D R ps ∧
      ∀ qs, IsMatching D R qs → pairsWeight W qs ≤ pairsWeight W ps := by
  rw [solve_matching_problem] at h
  cases hILP : solveILP W D R with
  | none => rw [hILP] at h; simp at h
  | some b =>
    rw [hILP] at h
    simp only [Option.map_some', Option.some.injEq] at h
    subst h
    rw [solveILP] at hILP
    obtain ⟨hbmem, hbmax⟩ := bestTuple_mem hILP
    obtain ⟨hblen, hbD, hbnd⟩ := mem_candidates.mp hbmem
    have hperm := extract_perm hblen hbD
    refine ⟨?_, ⟨?_, ?_, ?_⟩, ?_⟩
    · rw [hperm.length_eq, pairsOf_length, hblen]
    · intro j hj
      rw [(hperm.filter (fun p => p.2 == j)).length_eq]
      exact pairsOf_filter_length (by omega)
    · rw [(hperm.map Prod.fst).nodup_iff, pairsOf_map_fst]
      exact hbnd
    · rintro ⟨i, j⟩ hp
      have hm := mem_extract.mp hp
      exact ⟨hm.1, hm.2.1⟩
    · intro qs hqs
      have h1 : pairsWeight W qs = tupleWeight W (tupleOf qs R) :=
        pairsWeight_perm (matching_perm_pairsOf hqs)
      have h2 : tupleWeight W (tupleOf qs R) ≤ tupleWeight W b :=
        hbmax _ (tupleOf_mem_candidates hqs)
      have h3 : pairsWeight W (extractAssignments D R b) = tupleWeight W b :=
        pairsWeight_perm hperm
      rw [h1, h3]
      exact h2

theorem solve_isSome {W : List (List ℚ)} {D R : ℕ} (h2 : R ≤ D) :
    ∃ ps, solve_matching_problem W D R = some ps := by
  obtain ⟨b, hb, -, -⟩ := bestTuple_spec (W := W) (candidates_ne_nil h2)
  exact ⟨extractAssignments D R b, by rw [solve_matching_problem, solveILP, hb]; rfl⟩

theorem solve_eq_none {W : List (List ℚ)} {D R : ℕ} (h : D < R) :
    solve_matching_problem W D R = none := by
  rw [solve_matching_problem, solveILP, candidates_eq_nil h]
  rfl

/-! ## Helper lemmas: rounding, tiers, concrete evaluations -/

theorem round2_down {x : ℚ} {n : ℤ} (h1 : (n : ℚ) ≤ x * 100)
    (h2 : x * 100 - n < 1/2) : round2 x = (n : ℚ) / 100 := by
  have hf : ⌊x * 100⌋ = n := by
    rw [Int.floor_eq_iff]
    constructor
    · exact h1
    · linarith
  rw [round2, roundHalfEven, hf, if_pos (by linarith)]

theorem difficulty_tier_bounds {s : ℚ} {a : Tier}
    (h : difficulty_tier s = some a) : tierLB a < s ∧ s ≤ tierUB a := by
  rw [difficulty_tier] at h
  split_ifs at h with h1 h2 h3 h4 <;>
    simp only [Option.some.injEq] at h <;>
    subst h <;>
    simpa [tierLB, tierUB] using by assumption

theorem tierUB_le_tierLB {a b : Tier} (h : b.rank < a.rank) :
    tierUB b ≤ tierLB a := by
  cases a <;> cases b <;>
    simp [Tier.rank] at h ⊢ <;>
    norm_num [tierLB, tierUB]

theorem clip_mem_Icc {x lo hi : ℚ} (h : lo ≤ hi) :
    lo ≤ clip x lo hi ∧ clip x lo hi ≤ hi := by
  rw [clip]
  constructor
  · exact le_min (le_max_right x lo) h
  · exact min_le_right _ _

theorem solve_eval_22 :
    solve_matching_problem [[1, 2], [3, 5]] 2 2 = some [(0, 0), (1, 1)] := by
  have hc : candidates 2 2 = [[0, 1], [1, 0]] := by decide
  have hw0 : tupleWeight [[1, 2], [3, 5]] [0, 1] = 6 := by
    simp only [tupleWeight, pairsWeight, pairsOf, pairsOfAux, List.map_cons,
      List.map_nil, List.sum_cons, List.sum_nil]
    norm_num [show matrixGet [[1, 2], [3, 5]] 0 0 = 1 from rfl,
      show matrixGet [[1, 2], [3, 5]] 1 1 = 5 from rfl]
  have hw1 : tupleWeight [[1, 2], [3, 5]] [1, 0] = 5 := by
    simp only [tupleWeight, pairsWeight, pairsOf, pairsOfAux, List.map_cons,
      List.map_nil, List.sum_cons, List.sum_nil]
    norm_num [show matrixGet [[1, 2], [3, 5]] 1 0 = 3 from rfl,
      show matrixGet [[1, 2], [3, 5]] 0 1 = 2 from rfl]
  have hb : bestTuple [[1, 2], [3, 5]] (candidates 2 2) = some [0, 1] := by
    rw [hc, bestTuple]
    simp only [List.foldl_cons, List.foldl_nil, hw0, hw1]
    norm_num
  have he : extractAssignments 2 2 [0, 1] = [(0, 0), (1, 1)] := by decide
  rw [solve_matching_problem, solveILP, hb, Option.map_some', he]

theorem pairsWeight_allones_1 :
    pairsWeight [[1, 1], [1, 1]] [(0, 0), (1, 1)] = 2 := by
  simp only [pairsWeight, List.map_cons, List.map_nil, List.sum_cons, List.sum_nil]
  norm_num [show matrixGet [[1, 1], [1, 1]] 0 0 = 1 from rfl,
    show matrixGet [[1, 1], [1, 1]] 1 1 = 1 from rfl]

theorem pairsWeight_allones_2 :
    pairsWeight [[1, 1], [1, 1]] [(0, 1), (1, 0)] = 2 := by
  simp only [pairsWeight, List.map_cons, List.map_nil, List.sum_cons, List.sum_nil]
  norm_num [show matrixGet [[1, 1], [1, 1]] 0 1 = 1 from rfl,
    show matrixGet [[1, 1], [1, 1]] 1 0 = 1 from rfl]

theorem allones_matching_weight {qs : List (ℕ × ℕ)}
    (hqs : IsMatching 2 2 qs) : pairsWeight [[1, 1], [1, 1]] qs = 2 := by
  have hperm := matching_perm_pairsOf hqs
  have hcand := tupleOf_mem_candidates hqs
  rw [show candidates 2 2 = [[0, 1], [1, 0]] from by decide] at hcand
  rw [pairsWeight_perm hperm]
  have hdisj : tupleOf qs 2 = [0, 1] ∨ tupleOf qs 2 = [1, 0] := by
    simpa using hcand
  rcases hdisj with h | h <;> rw [h]
  · have : pairsOf [0, 1] = [(0, 0), (1, 1)] := by decide
    rw [this, pairsWeight_allones_1]
  · have : pairsOf [1, 0] = [(1, 0), (0, 1)] := by decide
    rw [this]
    simp only [pairsWeight, List.map_cons, List.map_nil, List.sum_cons, List.sum_nil]
    norm_num [show matrixGet [[1, 1], [1, 1]] 1 0 = 1 from rfl,
      show matrixGet [[1, 1], [1, 1]] 0 1 = 1 from rfl]

theorem allones_optimal :
    IsOptimalMatching [[1, 1], [1, 1]] 2 2 [(0, 0), (1, 1)] ∧
    IsOptimalMatching [[1, 1], [1, 1]] 2 2 [(0, 1), (1, 0)] := by
  constructor
  · refine ⟨⟨by decide, by decide, by decide⟩, ?_⟩
    intro qs hqs
    rw [allones_matching_weight hqs, pairsWeight_allones_1]
  · refine ⟨⟨by decide, by decide, by decide⟩, ?_⟩
    intro qs hqs
    rw [allones_matching_weight hqs, pairsWeight_allones_2]

/-! ## Claim theorems -/

/-- C1: for every D×R weight matrix with D ≥ R ≥ 1 (weights may be negative),
`solve_matching_problem` returns a list of exactly R (driver_index,
route_index) pairs forming a valid assignment — every route index exactly
once, no driver index twice — whose total selected weight equals the true
maximum over all such assignments. -/
theorem C1_solver_returns_optimal_assignment (W : List (List ℚ)) (D R : ℕ)
    (_hR : 1 ≤ R) (hDR : R ≤ D) :
    ∃ ps, solve_matching_problem W D R = some ps ∧ ps.length = R ∧
      IsMatching D R ps ∧
      ∀ qs, IsMatching D R qs → pairsWeight W qs ≤ pairsWeight W ps := by
  obtain ⟨ps, hps⟩ := solve_isSome (W := W) hDR
  obtain ⟨hlen, hm, hopt⟩ := solve_spec hps
  exact ⟨ps, hps, hlen, hm, hopt⟩

/-- Witness for C1 at the concrete 3×2 matrix [[5,1],[2,7],[4,4]]. -/
theorem C1_solver_returns_optimal_assignment_witness :
    (1 ≤ 2 ∧ 2 ≤ 3) ∧
    ∃ ps, solve_matching_problem [[5, 1], [2, 7], [4, 4]] 3 2 = some ps ∧
      ps.length = 2 ∧ IsMatching 3 2 ps ∧
      ∀ qs, IsMatching 3 2 qs →
        pairsWeight [[5, 1], [2, 7], [4, 4]] qs ≤
          pairsWeight [[5, 1], [2, 7], [4, 4]] ps :=
  ⟨⟨by decide, by decide⟩,
    C1_solver_returns_optimal_assignment [[5, 1], [2, 7], [4, 4]] 3 2
      (by decide) (by decide)⟩

/-- C2: every assignment returned by `solve_matching_problem` satisfies the
no-duplicate invariant — each route index below R appears in exactly one
returned pair and each driver index appears in at most one returned pair. -/
theorem C2_solved_assignment_invariants (W : List (List ℚ)) (D R : ℕ)
    (_hR : 1 ≤ R) (_hDR : R ≤ D) (ps : List (ℕ × ℕ))
    (hs : solve_matching_problem W D R = some ps) :
    (∀ j, j < R → (ps.filter fun p => p.2 == j).length = 1) ∧
    (ps.map Prod.fst).Nodup := by
  obtain ⟨-, hm, -⟩ := solve_spec hs
  exact ⟨hm.1, hm.2.1⟩

/-- Witness for C2 on the concrete 2×2 matrix [[1,2],[3,5]], whose solved
assignment is [(0,0),(1,1)]. -/
theorem C2_solved_assignment_invariants_witness :
    (∀ j, j < 2 →
      (([((0 : ℕ), (0 : ℕ)), (1, 1)].filter fun p => p.2 == j).length = 1)) ∧
    ([((0 : ℕ), (0 : ℕ)), (1, 1)].map Prod.fst).Nodup :=
  C2_solved_assignment_invariants [[1, 2], [3, 5]] 2 2 (by decide) (by decide)
    [(0, 0), (1, 1)] solve_eval_22

/-- C3 counterexample: with D = 2 drivers and R = 3 routes the code does not
raise any `InfeasibleAssignmentError` (no such exception class exists in the
repository); `solve_matching_problem` returns the value `None` after CBC
reports a non-Optimal status (match_drivers_routes.py lines 106-108). -/
theorem C3_counterexample_returns_none :
    solve_matching_problem [[0, 0, 0], [0, 0, 0]] 2 3 = none := by decide

/-- C3 amended: for every matrix with D < R the binary program is infeasible,
so CBC's status is not Optimal and `solve_matching_problem` returns `None`
(rather than raising an exception or returning a partial assignment). -/
theorem C3_infeasible_returns_none (W : List (List ℚ)) (D R : ℕ)
    (h : D < R) : solve_matching_problem W D R = none :=
  solve_eq_none h

/-- Witness for C3 at D = 1, R = 2. -/
theorem C3_infeasible_returns_none_witness :
    1 < 2 ∧ solve_matching_problem [[9, 9]] 1 2 = none :=
  ⟨by decide, C3_infeasible_returns_none [[9, 9]] 1 2 (by decide)⟩

/-- C4: `calculate_compatibility_matrix` produces a D×R matrix whose (i,j)
entry is exactly the spec's formula
(100 − |adjusted − final|) + (10 if adjusted ≥ final else −20)
+ (−km_balance/1000) + (0.20·safety if danger > 70 else 0),
with no clipping applied. -/
theorem C4_compatibility_matrix_formula (ds : List MDriver) (rs : List MRoute) :
    (calculate_compatibility_matrix ds rs).length = ds.length ∧
    (∀ row ∈ calculate_compatibility_matrix ds rs, row.length = rs.length) ∧
    ∀ i j, i < ds.length → j < rs.length →
      matrixGet (calculate_compatibility_matrix ds rs) i j =
        specWeight (ds.getD i ⟨0, 0, 0⟩) (rs.getD j ⟨0, 0⟩) := by
  refine ⟨by simp [calculate_compatibility_matrix], ?_, ?_⟩
  · intro row hrow
    obtain ⟨d, -, rfl⟩ := List.mem_map.mp (by
      simpa [calculate_compatibility_matrix] using hrow)
    simp
  · intro i j hi hj
    have hrow : (calculate_compatibility_matrix ds rs).getD i [] =
        rs.map fun r => compat (ds.getD i ⟨0, 0, 0⟩) r := by
      rw [calculate_compatibility_matrix,
        List.getD_eq_getElem _ _ (by simpa using hi), List.getElem_map,
        List.getD_eq_getElem _ _ hi]
    have hcell : (rs.map fun r => compat (ds.getD i ⟨0, 0, 0⟩) r).getD j 0 =
        compat (ds.getD i ⟨0, 0, 0⟩) (rs.getD j ⟨0, 0⟩) := by
      rw [List.getD_eq_getElem _ _ (by simpa using hj), List.getElem_map,
        List.getD_eq_getElem _ _ hj]
    rw [matrixGet, hrow, hcell]
    by_cases h1 : (ds.getD i ⟨0, 0, 0⟩).driver_score_adjusted ≥
        (rs.getD j ⟨0, 0⟩).route_score_final <;>
      by_cases h2 : (rs.getD j ⟨0, 0⟩).peligrosity_score > 70 <;>
      simp [compat, specWeight, h1, h2] <;>
      ring

/-- Witness for C4 on one concrete driver and route (danger 75 > 70, so the
safety bonus applies); the spec formula evaluates to 122.5 there. -/
theorem C4_compatibility_matrix_formula_witness :
    (0 < 1 ∧ 0 < 1) ∧
    matrixGet (calculate_compatibility_matrix [⟨85, 500, 90⟩] [⟨80, 75⟩]) 0 0 =
      specWeight (List.getD [⟨85, 500, 90⟩] 0 ⟨0, 0, 0⟩)
        (List.getD [⟨80, 75⟩] 0 ⟨0, 0⟩) ∧
    specWeight ⟨85, 500, 90⟩ ⟨80, 75⟩ = 245/2 :=
  ⟨⟨by decide, by decide⟩,
    (C4_compatibility_matrix_formula [⟨85, 500, 90⟩] [⟨80, 75⟩]).2.2 0 0
      (by decide) (by decide),
    by norm_num [specWeight, abs_of_nonneg]⟩

/-- C8 counterexample: on the all-ones 2×2 matrix two distinct valid pairings
are both optimal (equal total weight 2, which is what the solver attains), so
optimality plus "the specified deterministic tie-break" cannot pin down the
pairing: the code specifies no tie-break rule at all, and which optimum CBC
reports is its own undocumented choice. -/
theorem C8_counterexample_two_optimal_pairings :
    IsMatching 2 2 [(0, 0), (1, 1)] ∧ IsMatching 2 2 [(0, 1), (1, 0)] ∧
    [((0 : ℕ), (0 : ℕ)), (1, 1)] ≠ [(0, 1), (1, 0)] ∧
    pairsWeight [[1, 1], [1, 1]] [(0, 0), (1, 1)] =
      pairsWeight [[1, 1], [1, 1]] [(0, 1), (1, 0)] ∧
    pairsWeight [[1, 1], [1, 1]] [(0, 0), (1, 1)] = 2 := by
  refine ⟨⟨by decide, by decide, by decide⟩, ⟨by decide, by decide, by decide⟩,
    by decide, ?_, pairsWeight_allones_1⟩
  rw [pairsWeight_allones_1, pairsWeight_allones_2]

/-- C8 amended: what the code does guarantee on a re-run is the total weight —
any two optimal assignments of the same matrix have equal total selected
weight (and the embedded solver, being a function of the matrix, reproduces
the identical pair list).  The pairing itself is not determined by the code,
which specifies no tie-break rule. -/
theorem C8_rerun_same_total_weight (W : List (List ℚ)) (D R : ℕ)
    (ps1 ps2 : List (ℕ × ℕ)) (h1 : IsOptimalMatching W D R ps1)
    (h2 : IsOptimalMatching W D R ps2) :
    pairsWeight W ps1 = pairsWeight W ps2 :=
  le_antisymm (h2.2 ps1 h1.1) (h1.2 ps2 h2.1)

/-- Witness for C8 on the all-ones 2×2 matrix and its two optimal pairings. -/
theorem C8_rerun_same_total_weight_witness :
    pairsWeight [[1, 1], [1, 1]] [(0, 0), (1, 1)] =
      pairsWeight [[1, 1], [1, 1]] [(0, 1), (1, 0)] :=
  C8_rerun_same_total_weight [[1, 1], [1, 1]] 2 2 [(0, 0), (1, 1)]
    [(0, 1), (1, 0)] allones_optimal.1 allones_optimal.2

/-- C5: the claimed definition `km_balance_scaled = clip((km_balance /
stddev) × 5, −10, 10) with the zero-std case defined as 0` holds for the
guarded sibling `calculate_adjusted_scores` (generate_driver_scores_json.py),
but `calculate_driver_scores` (calculate_scores.py) has no guard: with two
drivers of equal driven_km the sample variance is 0, the code computes the
float 0/0, and km_balance_scaled is NaN (`none`) for every driver — not 0. -/
theorem C5_zero_std_yields_nan_not_zero :
    sampleVarKm [⟨80, 80, 80, 100⟩, ⟨90, 85, 70, 100⟩] = 0 ∧
    km_balance_scaled [⟨80, 80, 80, 100⟩, ⟨90, 85, 70, 100⟩] 0
      ⟨80, 80, 80, 100⟩ = none ∧
    km_balance_scaled_json [⟨80, 80, 80, 100⟩, ⟨90, 85, 70, 100⟩] 0
      ⟨80, 80, 80, 100⟩ = 0 := by
  refine ⟨?_, by simp [km_balance_scaled], by norm_num [km_balance_scaled_json]⟩
  norm_num [sampleVarKm, meanKm]

/-- C6: the invariant `driver_score_adjusted ∈ [0,100]` and
`km_balance_scaled ∈ [−10,10]` fails in calculate_scores.py exactly on the
all-equal-distances input the claim includes: there the sample variance is 0
and both columns are NaN (`none`), which lies in neither interval. -/
theorem C6_invariant_fails_on_equal_distances :
    sampleVarKm [⟨90, 80, 70, 50⟩, ⟨60, 70, 80, 50⟩, ⟨50, 60, 70, 50⟩] = 0 ∧
    km_balance_scaled [⟨90, 80, 70, 50⟩, ⟨60, 70, 80, 50⟩, ⟨50, 60, 70, 50⟩] 0
      ⟨90, 80, 70, 50⟩ = none ∧
    driver_score_adjusted [⟨90, 80, 70, 50⟩, ⟨60, 70, 80, 50⟩, ⟨50, 60, 70, 50⟩] 0
      ⟨90, 80, 70, 50⟩ = none := by
  refine ⟨?_, by simp [km_balance_scaled],
    by simp [driver_score_adjusted, km_balance_scaled]⟩
  norm_num [sampleVarKm, meanKm]

/-- C7: difficulty tiers bin `route_score_final` into the half-open intervals
(0,40] → Easy, (40,60] → Medium, (60,80] → Hard, (80,100] → Expert; a score
of exactly 0 falls outside every bin and gets no tier; and the assigned tier
is monotone non-decreasing in the score. -/
theorem C7_difficulty_tier_binning (s t : ℚ) (a b : Tier) :
    ((0 < s ∧ s ≤ 40) → difficulty_tier s = some .easy) ∧
    ((40 < s ∧ s ≤ 60) → difficulty_tier s = some .medium) ∧
    ((60 < s ∧ s ≤ 80) → difficulty_tier s = some .hard) ∧
    ((80 < s ∧ s ≤ 100) → difficulty_tier s = some .expert) ∧
    difficulty_tier 0 = none ∧
    (s ≤ t → difficulty_tier s = some a → difficulty_tier t = some b →
      a.rank ≤ b.rank) := by
  refine ⟨?_, ?_, ?_, ?_, by norm_num [difficulty_tier], ?_⟩
  · rintro ⟨h1, h2⟩
    rw [difficulty_tier, if_pos ⟨h1, h2⟩]
  · rintro ⟨h1, h2⟩
    rw [difficulty_tier, if_neg (by rintro ⟨-, hc⟩; linarith),
      if_pos ⟨h1, h2⟩]
  · rintro ⟨h1, h2⟩
    rw [difficulty_tier, if_neg (by rintro ⟨-, hc⟩; linarith),
      if_neg (by rintro ⟨-, hc⟩; linarith), if_pos ⟨h1, h2⟩]
  · rintro ⟨h1, h2⟩
    rw [difficulty_tier, if_neg (by rintro ⟨-, hc⟩; linarith),
      if_neg (by rintro ⟨-, hc⟩; linarith),
      if_neg (by rintro ⟨-, hc⟩; linarith), if_pos ⟨h1, h2⟩]
  · intro hst ha hb
    by_contra hlt
    push_neg at hlt
    have hub := tierUB_le_tierLB hlt
    have hA := difficulty_tier_bounds ha
    have hB := difficulty_tier_bounds hb
    linarith [hA.1, hA.2, hB.1, hB.2]

/-- Witness for C7 at scores 30 (Easy) and 70 (Hard). -/
theorem C7_difficulty_tier_binning_witness :
    difficulty_tier 30 = some .easy ∧ difficulty_tier 70 = some .hard ∧
    Tier.rank .easy ≤ Tier.rank .hard := by
  have h := C7_difficulty_tier_binning 30 70 Tier.easy Tier.hard
  have h30 : difficulty_tier (30 : ℚ) = some .easy :=
    h.1 ⟨by norm_num, by norm_num⟩
  have h70 : difficulty_tier (70 : ℚ) = some .hard :=
    (C7_difficulty_tier_binning 70 70 Tier.easy Tier.hard).2.2.1
      ⟨by norm_num, by norm_num⟩
  exact ⟨h30, h70, h.2.2.2.2.2 (by norm_num) h30 h70⟩

/-- C9 counterexample: a driver record with safety_score = 150 (outside
[0,100]) is processed without any error — calculate_driver_scores returns a
row for it, storing driver_score_final = 120.  No `InvalidInputError` exists
anywhere in the repository and no range check is performed. -/
theorem C9_counterexample_out_of_range_processed :
    (calculate_driver_scores
      [⟨150, 100, 100, 0⟩, ⟨50, 50, 50, 6⟩, ⟨50, 50, 50, 12⟩] 6).length = 3 ∧
    (calculate_driver_scores
      [⟨150, 100, 100, 0⟩, ⟨50, 50, 50, 6⟩, ⟨50, 50, 50, 12⟩] 6).map
        ScoredDriver.final = [120, 50, 50] := by
  constructor
  · simp [calculate_driver_scores]
  · have e1 : round2 (driver_score_final ⟨150, 100, 100, 0⟩) = 120 := by
      have hv : driver_score_final ⟨150, 100, 100, 0⟩ = 120 := by
        norm_num [driver_score_final]
      have hr : round2 (120 : ℚ) = ((12000 : ℤ) : ℚ) / 100 :=
        round2_down (by norm_num) (by norm_num)
      rw [hv, hr]
      norm_num
    have e2 : round2 (driver_score_final ⟨50, 50, 50, 6⟩) = 50 := by
      have hv : driver_score_final ⟨50, 50, 50, 6⟩ = 50 := by
        norm_num [driver_score_final]
      have hr : round2 (50 : ℚ) = ((5000 : ℤ) : ℚ) / 100 :=
        round2_down (by norm_num) (by norm_num)
      rw [hv, hr]
      norm_num
    have e3 : round2 (driver_score_final ⟨50, 50, 50, 12⟩) = 50 := by
      have hv : driver_score_final ⟨50, 50, 50, 12⟩ = 50 := by
        norm_num [driver_score_final]
      have hr : round2 (50 : ℚ) = ((5000 : ℤ) : ℚ) / 100 :=
        round2_down (by norm_num) (by norm_num)
      rw [hv, hr]
      norm_num
    simp only [calculate_driver_scores, List.map_cons, List.map_nil,
      List.map_map, Function.comp_def]
    rw [e1, e2, e3]

/-- C9 amended: the Score Normalizer performs no input validation at all —
every driver record, including ones with sub-scores outside [0,100], is
transformed into exactly one scored row (nothing is rejected and no
exception path exists), and out-of-range inputs flow through the formulas:
safety 150 yields driver_score_final 120 > 100. -/
theorem C9_no_input_validation (ds : List RawDriver) (sd : ℚ) :
    (calculate_driver_scores ds sd).map ScoredDriver.raw = ds ∧
    (calculate_driver_scores ds sd).length = ds.length ∧
    driver_score_final ⟨150, 100, 100, 0⟩ = 120 := by
  refine ⟨?_, by simp [calculate_driver_scores], by norm_num [driver_score_final]⟩
  rw [calculate_driver_scores, List.map_map]
  simp [Function.comp_def]

/-- C10: all stored normalizer columns are rounded to two decimals, with the
rounding applied to the already-clipped series, while difficulty_tier is cut
from the unrounded route_score_final; consequently the route with raw scores
(40.0025, 40, 40) has unrounded final score 40.001, is stored as 40.00, and
carries tier Medium even though a stored score of exactly 40 bins as Easy. -/
theorem C10_rounded_columns_tier_from_unrounded :
    (∀ ds sd,
      (calculate_driver_scores ds sd).map ScoredDriver.final =
        ds.map (fun d => round2 (driver_score_final d)) ∧
      (calculate_driver_scores ds sd).map ScoredDriver.kmBal =
        ds.map (fun d => round2 (km_balance ds d)) ∧
      (calculate_driver_scores ds sd).map ScoredDriver.kmBalScaled =
        ds.map (fun d => (km_balance_scaled ds sd d).map round2) ∧
      (calculate_driver_scores ds sd).map ScoredDriver.adjusted =
        ds.map (fun d => (driver_score_adjusted ds sd d).map round2)) ∧
    (∀ rs,
      (calculate_route_scores rs).map ScoredRoute.finalScore =
        rs.map (fun r => round2 (route_score_final r)) ∧
      (calculate_route_scores rs).map ScoredRoute.tier =
        rs.map (fun r => difficulty_tier (route_score_final r))) ∧
    route_score_final ⟨40.0025, 40, 40⟩ = 40.001 ∧
    round2 (route_score_final ⟨40.0025, 40, 40⟩) = 40 ∧
    difficulty_tier (route_score_final ⟨40.0025, 40, 40⟩) = some .medium ∧
    difficulty_tier 40 = some .easy := by
  have hval : route_score_final ⟨40.0025, 40, 40⟩ = 40.001 := by
    norm_num [route_score_final, clip, min_def, max_def]
  refine ⟨?_, ?_, hval, ?_, ?_, by norm_num [difficulty_tier]⟩
  · intro ds sd
    refine ⟨?_, ?_, ?_, ?_⟩ <;>
      (rw [calculate_driver_scores, List.map_map]; simp [Function.comp_def])
  · intro rs
    refine ⟨?_, ?_⟩ <;>
      (rw [calculate_route_scores, List.map_map]; simp [Function.comp_def])
  · have hr : round2 (40.001 : ℚ) = ((4000 : ℤ) : ℚ) / 100 :=
      round2_down (by norm_num) (by norm_num)
    rw [hval, hr]
    norm_num
  · rw [hval]
    norm_num [difficulty_tier]

end RumboAI
